import Mathlib

/-!
Verification of the finsight category-hierarchy maintenance subsystem.

The SQLite store is modelled as lists of rows (one list per table), in
insertion order, so that SELECT ... fetch_all returns the list filtered by
the WHERE clause and fetch_one returns the head of that list (failing with
a row-not-found error when it is empty, as sqlx does).  Each SQL statement
site is named by a `Stmt` value and every operation takes a fault oracle
`fail : Stmt → Bool` describing which statements the storage engine makes
fail (the engine is assumed reliable but fallible); `noFail` is the
fault-free run.  An operation returns the store state after it finishes
together with an optional error, because the Rust code mutates the pool
statement by statement: on an error the earlier statements of the same
operation have already taken effect.
-/

namespace Finsight

/-- A row of the categories table: id, name, parent_id (nullable). -/
structure Category where
  id : Int
  name : String
  parent_id : Option Int
  deriving DecidableEq

/-- A row of the transactions table (created_at omitted: never read by the
code under verification). -/
structure Transaction where
  id : Int
  account_id : Int
  amount_cents : Int
  transaction_type : String
  description : String
  transaction_date : String
  category_id : Int
  deriving DecidableEq

/-- A row of the accounts table. -/
structure Account where
  id : Int
  name : String
  account_type : String
  archived : Bool
  deriving DecidableEq

/-- The database state: the three tables, each in rowid order. -/
structure DB where
  accounts : List Account
  categories : List Category
  transactions : List Transaction
  deriving DecidableEq

/-- The SQL statement sites of the modelled operations, used by the fault
oracle to say which statement the storage engine fails. -/
inductive Stmt where
  | selectChildren
  | selectParentId
  | updateChildParents
  | selectUncategorized
  | updateTxnCategories
  | deleteCategoryRow
  | updateCategoryRow
  | insertCategoryRow
  | deleteTransactionRow
  deriving DecidableEq

/-- Errors surfaced by the storage engine: the sqlx RowNotFound error of
fetch_one on an empty result, and an injected storage fault. -/
inductive DbError where
  | rowNotFound
  | storageFault
  deriving DecidableEq

/-- The fault-free oracle: no statement fails. -/
def noFail : Stmt → Bool := fun _ => false

/-- Embeds handle_orphaned_categories (categories.rs): SELECT the children
of category_id; if none, return; otherwise SELECT the parent_id of
category_id (taking row 0 of fetch_all when nonempty, None otherwise) and
UPDATE every child to that parent in one bulk statement. -/
def handle_orphaned_categories (fail : Stmt → Bool) (db : DB)
    (category_id : Int) : DB × Option DbError :=
  if fail Stmt.selectChildren then (db, some DbError.storageFault) else
  let children := db.categories.filter (fun c => c.parent_id = some category_id)
  if children.isEmpty then (db, none) else
  if fail Stmt.selectParentId then (db, some DbError.storageFault) else
  let parent_row := db.categories.filter (fun c => c.id = category_id)
  let parent_id : Option Int :=
    match parent_row with
    | [] => none
    | r :: _ => r.parent_id
  if fail Stmt.updateChildParents then (db, some DbError.storageFault) else
  ({ db with
      categories := db.categories.map (fun c =>
        if c.parent_id = some category_id then
          { c with parent_id := parent_id }
        else c) }, none)

/-- Embeds handle_orphaned_transactions (categories.rs): fetch_one the id
of the category named Uncategorized (RowNotFound when absent), then UPDATE
every transaction of category_id to that id in one bulk statement. -/
def handle_orphaned_transactions (fail : Stmt → Bool) (db : DB)
    (category_id : Int) : DB × Option DbError :=
  if fail Stmt.selectUncategorized then (db, some DbError.storageFault) else
  match db.categories.filter (fun c => c.name = "Uncategorized") with
  | [] => (db, some DbError.rowNotFound)
  | u :: _ =>
    if fail Stmt.updateTxnCategories then (db, some DbError.storageFault) else
    ({ db with
        transactions := db.transactions.map (fun t =>
          if t.category_id = category_id then
            { t with category_id := u.id }
          else t) }, none)

/-- Embeds delete_category (categories.rs): the two orphan handlers in
order, each error short-circuiting, then DELETE the category row (a DELETE
matching no row succeeds, as in SQLite). -/
def delete_category (fail : Stmt → Bool) (db : DB)
    (category_id : Int) : DB × Option DbError :=
  match handle_orphaned_categories fail db category_id with
  | (db1, some e) => (db1, some e)
  | (db1, none) =>
    match handle_orphaned_transactions fail db1 category_id with
    | (db2, some e) => (db2, some e)
    | (db2, none) =>
      if fail Stmt.deleteCategoryRow then (db2, some DbError.storageFault) else
      ({ db2 with
          categories := db2.categories.filter (fun c => ¬ c.id = category_id) },
       none)

/-- Embeds update_category (categories.rs): one UPDATE rewriting name and
parent_id of the row with the given id. -/
def update_category (fail : Stmt → Bool) (db : DB) (category_id : Int)
    (name : String) (parent_id : Option Int) : DB × Option DbError :=
  if fail Stmt.updateCategoryRow then (db, some DbError.storageFault) else
  ({ db with
      categories := db.categories.map (fun c =>
        if c.id = category_id then
          { c with name := name, parent_id := parent_id }
        else c) }, none)

/-- Embeds add_category (categories.rs): one INSERT; the AUTOINCREMENT id
is modelled as one more than the largest id in use. -/
def add_category (fail : Stmt → Bool) (db : DB) (name : String)
    (parent_id : Option Int) : DB × Option DbError :=
  if fail Stmt.insertCategoryRow then (db, some DbError.storageFault) else
  let newId : Int := (db.categories.map (fun c => c.id)).foldr max 0 + 1
  ({ db with
      categories := db.categories ++ [{ id := newId, name := name, parent_id := parent_id }] },
   none)

/-- Embeds delete_transaction (transactions.rs): one DELETE by id (a
DELETE matching no row succeeds, as in SQLite). -/
def delete_transaction (fail : Stmt → Bool) (db : DB)
    (transaction_id : Int) : DB × Option DbError :=
  if fail Stmt.deleteTransactionRow then (db, some DbError.storageFault) else
  ({ db with
      transactions := db.transactions.filter (fun t => ¬ t.id = transaction_id) },
   none)

/-- The row of the categories table with the given id, if any (first match
in rowid order). -/
def findCategory (db : DB) (i : Int) : Option Category :=
  db.categories.find? (fun c => c.id = i)

/-- The parent reference of the category with the given id (none when the
id is absent or the category is a root). -/
def parentOf (db : DB) (i : Int) : Option Int :=
  match findCategory db i with
  | none => none
  | some c => c.parent_id

/-- The ancestor chain of a category id, followed for at most the given
number of steps. -/
def ancestorsAux (db : DB) : Nat → Int → List Int
  | 0, _ => []
  | n + 1, i =>
    match parentOf db i with
    | none => []
    | some p => p :: ancestorsAux db n p

/-- The ancestor chain of a category id, followed for as many steps as
there are categories: long enough to reveal any cycle. -/
def ancestors (db : DB) (i : Int) : List Int :=
  ancestorsAux db db.categories.length i

/-- The no-cycle invariant on category parent references: no category is
its own ancestor. -/
def acyclicParents (db : DB) : Prop :=
  ∀ c ∈ db.categories, c.id ∉ ancestors db c.id

instance (db : DB) : Decidable (acyclicParents db) := by
  unfold acyclicParents; infer_instance

/-- The parent reference the deleted category hands to its children, as
handle_orphaned_categories computes it: row 0 of the SELECT on its own id
when that result is nonempty, None otherwise. -/
def grandparentOf (db : DB) (C : Int) : Option Int :=
  match db.categories.filter (fun c => c.id = C) with
  | [] => none
  | r :: _ => r.parent_id

/-- The per-row effect of the bulk child-promotion UPDATE of
handle_orphaned_categories. -/
def promo (db : DB) (C : Int) (c : Category) : Category :=
  if c.parent_id = some C then { c with parent_id := grandparentOf db C } else c

/-- A store holding only the seeded sentinel category. -/
def exSentinelOnly : DB :=
  { accounts := [],
    categories := [{ id := 1, name := "Uncategorized", parent_id := none }],
    transactions := [] }

/-- A store with one account, the sentinel, a root category Food with
child Groceries, and one transaction categorized as Food. -/
def exBase : DB :=
  { accounts := [{ id := 1, name := "Checking", account_type := "checking", archived := false }],
    categories :=
      [{ id := 1, name := "Uncategorized", parent_id := none },
       { id := 2, name := "Food", parent_id := none },
       { id := 3, name := "Groceries", parent_id := some 2 }],
    transactions :=
      [{ id := 1, account_id := 1, amount_cents := 1000, transaction_type := "debit",
         description := "groceries run", transaction_date := "2024-01-01", category_id := 2 }] }

/-- exBase extended with a grandchild Organic under Groceries. -/
def exChain : DB :=
  { exBase with
      categories := exBase.categories ++
        [{ id := 4, name := "Organic", parent_id := some 3 }] }

/-- A fault oracle failing exactly the final DELETE of delete_category. -/
def failDeleteRow : Stmt → Bool := fun s => s = Stmt.deleteCategoryRow

/-- A store whose single category is not named Uncategorized. -/
def exNoSentinel : DB :=
  { accounts := [],
    categories := [{ id := 2, name := "Food", parent_id := none }],
    transactions := [] }

/-- The store reached from exBase when delete_category 2 runs with the
final DELETE failing: child promoted and transaction reassigned, but the
Food row still present. -/
def exBaseAfterFailedDel2 : DB :=
  { accounts := exBase.accounts,
    categories :=
      [{ id := 1, name := "Uncategorized", parent_id := none },
       { id := 2, name := "Food", parent_id := none },
       { id := 3, name := "Groceries", parent_id := none }],
    transactions :=
      [{ id := 1, account_id := 1, amount_cents := 1000, transaction_type := "debit",
         description := "groceries run", transaction_date := "2024-01-01", category_id := 1 }] }

/-- The store reached from exBase by a successful fault-free
delete_category 2. -/
def exBaseAfterDel2 : DB :=
  { accounts := exBase.accounts,
    categories :=
      [{ id := 1, name := "Uncategorized", parent_id := none },
       { id := 3, name := "Groceries", parent_id := none }],
    transactions :=
      [{ id := 1, account_id := 1, amount_cents := 1000, transaction_type := "debit",
         description := "groceries run", transaction_date := "2024-01-01", category_id := 1 }] }

/-- The store reached from exChain by a successful fault-free
delete_category 3: Organic inherits Food as parent, Groceries removed. -/
def exChainAfterDel3 : DB :=
  { accounts := exBase.accounts,
    categories :=
      [{ id := 1, name := "Uncategorized", parent_id := none },
       { id := 2, name := "Food", parent_id := none },
       { id := 4, name := "Organic", parent_id := some 2 }],
    transactions := exBase.transactions }

/-- The empty store, as right after table creation. -/
def exEmpty : DB := { accounts := [], categories := [], transactions := [] }

/-- The store built by the operations themselves: seed the sentinel, then
add root category Food (id 2) and its child Groceries (id 3). -/
def exReached : DB :=
  (add_category noFail
    (add_category noFail
      (add_category noFail exEmpty "Uncategorized" none).1
      "Food" none).1
    "Groceries" (some 2)).1

theorem find_eq_head_filter (p : α → Bool) (l : List α) :
    l.find? p = (l.filter p).head? := by
  induction l with
  | nil => rfl
  | cons a t ih =>
    by_cases h : p a = true
    · simp [List.find?_cons, List.filter_cons, h]
    · have h' : p a = false := by simpa using h
      rw [List.find?_cons, h', List.filter_cons, h']
      exact ih

theorem promo_id (db : DB) (C : Int) (c : Category) : (promo db C c).id = c.id := by
  unfold promo; split <;> rfl

theorem promo_name (db : DB) (C : Int) (c : Category) :
    (promo db C c).name = c.name := by
  unfold promo; split <;> rfl

theorem filter_name_map_promo (db : DB) (C : Int) (l : List Category) :
    (l.map (promo db C)).filter (fun c => c.name = "Uncategorized")
      = (l.filter (fun c => c.name = "Uncategorized")).map (promo db C) := by
  induction l with
  | nil => rfl
  | cons a t ih =>
    by_cases h : a.name = "Uncategorized" <;>
      simp [List.filter_cons, promo_name, h, ih]

theorem handle_orphaned_categories_noFail_eq (db : DB) (C : Int) :
    handle_orphaned_categories noFail db C
      = ({ db with categories := db.categories.map (promo db C) }, none) := by
  by_cases hemp : (db.categories.filter (fun c => c.parent_id = some C)).isEmpty
  · have hnil : db.categories.filter (fun c => c.parent_id = some C) = [] :=
      List.isEmpty_iff.mp hemp
    have hall : ∀ c ∈ db.categories, ¬ c.parent_id = some C := by
      intro c hc
      have := List.filter_eq_nil_iff.mp hnil c hc
      simpa using this
    have hfix : db.categories.map (promo db C) = db.categories := by
      calc db.categories.map (promo db C)
          = db.categories.map id := by
            apply List.map_congr_left
            intro c hc
            simp [promo, hall c hc]
        _ = db.categories := List.map_id _
    simp [handle_orphaned_categories, noFail, hemp, hfix]
  · simp [handle_orphaned_categories, noFail, hemp, promo, grandparentOf]

theorem handle_orphaned_transactions_noFail_eq (db : DB) (C : Int) :
    handle_orphaned_transactions noFail db C
      = match db.categories.filter (fun c => c.name = "Uncategorized") with
        | [] => (db, some DbError.rowNotFound)
        | u :: _ =>
          ({ db with
              transactions := db.transactions.map (fun t =>
                if t.category_id = C then { t with category_id := u.id } else t) },
           none) := by
  simp [handle_orphaned_transactions, noFail]

theorem delete_category_noFail_eq (db : DB) (C : Int) :
    delete_category noFail db C
      = match db.categories.filter (fun c => c.name = "Uncategorized") with
        | [] =>
          ({ db with categories := db.categories.map (promo db C) },
           some DbError.rowNotFound)
        | u :: _ =>
          ({ accounts := db.accounts,
             categories := (db.categories.map (promo db C)).filter (fun c => ¬ c.id = C),
             transactions := db.transactions.map (fun t =>
               if t.category_id = C then { t with category_id := u.id } else t) },
           none) := by
  unfold delete_category
  rw [handle_orphaned_categories_noFail_eq]
  dsimp only
  rw [handle_orphaned_transactions_noFail_eq]
  dsimp only
  rw [filter_name_map_promo]
  cases hfilt : db.categories.filter (fun c => c.name = "Uncategorized") with
  | nil => dsimp only [List.map_nil]
  | cons u us =>
    dsimp only [List.map_cons]
    simp [noFail, promo_id]

theorem find_id_of_mem_nodup {l : List Category}
    (hnd : (l.map (fun c => c.id)).Nodup) {c : Category} (hc : c ∈ l) :
    l.find? (fun x => x.id = c.id) = some c := by
  induction l with
  | nil => cases hc
  | cons a t ih =>
    have hnd' : a.id ∉ t.map (fun c => c.id) ∧ (t.map (fun c => c.id)).Nodup := by
      simpa [List.nodup_cons] using hnd
    rcases List.mem_cons.mp hc with rfl | hct
    · simp [List.find?_cons]
    · have hne : ¬ (a.id = c.id) := by
        intro h
        exact hnd'.1 (by rw [h]; exact List.mem_map_of_mem _ hct)
      have hdec : (decide (a.id = c.id)) = false := by simpa using hne
      rw [List.find?_cons, hdec]
      exact ih hnd'.2 hct

theorem parentOf_mem {db : DB} (hnd : (db.categories.map (fun c => c.id)).Nodup)
    {c : Category} (hc : c ∈ db.categories) : parentOf db c.id = c.parent_id := by
  unfold parentOf findCategory
  rw [find_id_of_mem_nodup hnd hc]

theorem ancestorsAux_mono (db : DB) :
    ∀ n m i x, n ≤ m → x ∈ ancestorsAux db n i → x ∈ ancestorsAux db m i := by
  intro n
  induction n with
  | zero => intro m i x _ hx; simp [ancestorsAux] at hx
  | succ k ih =>
    intro m i x hnm hx
    obtain ⟨m', rfl⟩ : ∃ m', m = m' + 1 := ⟨m - 1, by omega⟩
    unfold ancestorsAux at hx ⊢
    cases hp : parentOf db i with
    | none => rw [hp] at hx; simp at hx
    | some p =>
      rw [hp] at hx
      dsimp only at hx ⊢
      rcases List.mem_cons.mp hx with h | h
      · exact List.mem_cons.mpr (Or.inl h)
      · exact List.mem_cons.mpr (Or.inr (ih m' p x (by omega) h))

theorem mem_ancestorsAux_head {db : DB} {i p : Int} (n : Nat)
    (hp : parentOf db i = some p) : p ∈ ancestorsAux db (n + 1) i := by
  unfold ancestorsAux
  rw [hp]
  exact List.mem_cons_self _ _

theorem mem_ancestorsAux_step {db : DB} {i p x : Int} {n : Nat}
    (hp : parentOf db i = some p) (hx : x ∈ ancestorsAux db n p) :
    x ∈ ancestorsAux db (n + 1) i := by
  unfold ancestorsAux
  rw [hp]
  exact List.mem_cons_of_mem _ hx

theorem one_lt_length_of_two_mem {l : List α} {c k : α}
    (hc : c ∈ l) (hk : k ∈ l) (hne : c ≠ k) : 1 < l.length := by
  cases l with
  | nil => cases hc
  | cons a t =>
    cases t with
    | nil =>
      simp only [List.mem_singleton] at hc hk
      exact absurd (hc.trans hk.symm) hne
    | cons b u => simp only [List.length_cons]; omega

theorem no_self_parent {db : DB} (hnd : (db.categories.map (fun c => c.id)).Nodup)
    (hacyc : acyclicParents db) {c : Category} (hc : c ∈ db.categories)
    (h : c.parent_id = some c.id) : False := by
  have hp : parentOf db c.id = some c.id := by rw [parentOf_mem hnd hc, h]
  have hlen : 0 < db.categories.length :=
    List.length_pos.mpr (List.ne_nil_of_mem hc)
  have hmem : c.id ∈ ancestors db c.id := by
    unfold ancestors
    exact ancestorsAux_mono db 1 _ _ _ (by omega) (mem_ancestorsAux_head 0 hp)
  exact hacyc c hc hmem

theorem no_two_cycle {db : DB} (hnd : (db.categories.map (fun c => c.id)).Nodup)
    (hacyc : acyclicParents db) {c k : Category}
    (hc : c ∈ db.categories) (hk : k ∈ db.categories)
    (hck : c.parent_id = some k.id) (hkc : k.parent_id = some c.id)
    (hne : c ≠ k) : False := by
  have hpc : parentOf db c.id = some k.id := by rw [parentOf_mem hnd hc, hck]
  have hpk : parentOf db k.id = some c.id := by rw [parentOf_mem hnd hk, hkc]
  have h2 : c.id ∈ ancestorsAux db (0 + 1 + 1) c.id :=
    mem_ancestorsAux_step hpc (mem_ancestorsAux_head 0 hpk)
  have hlen : 1 < db.categories.length := one_lt_length_of_two_mem hc hk hne
  have hmem : c.id ∈ ancestors db c.id := by
    unfold ancestors
    exact ancestorsAux_mono db (0 + 1 + 1) _ _ _ (by omega) h2
  exact hacyc c hc hmem

theorem grandparentOf_eq {db : DB} {C : Int} {cat : Category}
    (hfind : findCategory db C = some cat) : grandparentOf db C = cat.parent_id := by
  have hh : (db.categories.filter (fun x => x.id = C)).head? = some cat := by
    rw [← find_eq_head_filter]
    exact hfind
  unfold grandparentOf
  cases hfl : db.categories.filter (fun x => x.id = C) with
  | nil => rw [hfl] at hh; simp at hh
  | cons r rs =>
    rw [hfl] at hh
    simp only [List.head?_cons, Option.some.injEq] at hh
    rw [hh]

/-- C1: for an existing category C with parent P, under unique ids and an
acyclic parent chain, a successful fault-free delete_category gives every
former child of C the parent P (null when C was a root) and removes every
category row with id C. -/
theorem claim_C1_delete_category_promotes_children
    (db : DB) (C : Int) (cat : Category) (db' : DB)
    (hnd : (db.categories.map (fun c => c.id)).Nodup)
    (hacyc : acyclicParents db)
    (hfind : findCategory db C = some cat)
    (hok : delete_category noFail db C = (db', none)) :
    (∀ c ∈ db.categories, c.parent_id = some C →
       { c with parent_id := cat.parent_id } ∈ db'.categories) ∧
    (∀ c ∈ db'.categories, ¬ c.id = C) := by
  have hcat_mem : cat ∈ db.categories := List.mem_of_find?_eq_some hfind
  have hcat_id : cat.id = C := by
    have := List.find?_some hfind
    simpa using this
  rw [delete_category_noFail_eq] at hok
  cases hfilt : db.categories.filter (fun c => c.name = "Uncategorized") with
  | nil => rw [hfilt] at hok; simp at hok
  | cons u us =>
    rw [hfilt] at hok
    have hfst := congrArg Prod.fst hok
    dsimp at hfst
    constructor
    · intro c hc hcp
      have hchild_ne : ¬ c.id = C := by
        intro hcid
        have hceq : c = cat :=
          List.inj_on_of_nodup_map hnd hc hcat_mem (by rw [hcid, hcat_id])
        apply no_self_parent hnd hacyc hcat_mem
        rw [← hceq, hcp, ← hcid]
      have hgrand : grandparentOf db C = cat.parent_id := grandparentOf_eq hfind
      have hpromo : promo db C c = { c with parent_id := cat.parent_id } := by
        simp [promo, hcp, hgrand]
      rw [← hfst]
      apply List.mem_filter.mpr
      constructor
      · rw [← hpromo]
        exact List.mem_map_of_mem _ hc
      · simpa using hchild_ne
    · intro c' hc'
      rw [← hfst] at hc'
      have := (List.mem_filter.mp hc').2
      simpa using this

/-- C2: with exactly one category named Uncategorized and C distinct from
the sentinel id, a fault-free delete_category(C) succeeds and every
transaction whose category_id was C now carries the sentinel id. -/
theorem claim_C2_delete_category_reassigns_transactions
    (db : DB) (C : Int) (u : Category)
    (hU : db.categories.filter (fun c => c.name = "Uncategorized") = [u])
    (hCu : ¬ C = u.id) :
    ∃ db', delete_category noFail db C = (db', none) ∧
      ∀ t ∈ db.transactions, t.category_id = C →
        { t with category_id := u.id } ∈ db'.transactions := by
  rw [delete_category_noFail_eq, hU]
  refine ⟨_, rfl, ?_⟩
  intro t ht htc
  dsimp only
  have hft : (fun t : Transaction =>
      if t.category_id = C then { t with category_id := u.id } else t) t
        = { t with category_id := u.id } := by simp [htc]
  rw [← hft]
  exact List.mem_map_of_mem _ ht

/-- C3 counterexample: the store holds only the sentinel (id 1); deleting
the nonexistent id 5 returns success with the store unchanged, not an
error. -/
theorem claim_C3_counterexample_missing_id_is_silent_noop :
    delete_category noFail exSentinelOnly 5 = (exSentinelOnly, none) := by decide

/-- C3 amended: calling delete_category with an id matching no category
succeeds as a silent no-op (store unchanged, no error), provided the
sentinel lookup finds an Uncategorized category and nothing references the
missing id. -/
theorem claim_C3_amended_delete_category_missing_id_noop
    (db : DB) (C : Int)
    (hno : ∀ c ∈ db.categories, ¬ c.id = C)
    (hnp : ∀ c ∈ db.categories, ¬ c.parent_id = some C)
    (hnt : ∀ t ∈ db.transactions, ¬ t.category_id = C)
    (hsent : ∃ u ∈ db.categories, u.name = "Uncategorized") :
    delete_category noFail db C = (db, none) := by
  rw [delete_category_noFail_eq]
  obtain ⟨u, hu, hun⟩ := hsent
  have hfne : db.categories.filter (fun c => c.name = "Uncategorized") ≠ [] := by
    intro h
    have := List.filter_eq_nil_iff.mp h u hu
    simp [hun] at this
  cases hfl : db.categories.filter (fun c => c.name = "Uncategorized") with
  | nil => exact absurd hfl hfne
  | cons w ws =>
    dsimp only
    have hmap : db.categories.map (promo db C) = db.categories := by
      calc db.categories.map (promo db C)
          = db.categories.map id :=
            List.map_congr_left (fun c hc => by simp [promo, hnp c hc])
        _ = db.categories := List.map_id _
    have hfilter2 : db.categories.filter (fun c => ¬ c.id = C) = db.categories :=
      List.filter_eq_self.mpr (fun c hc => by simpa using hno c hc)
    have htx : db.transactions.map (fun t =>
        if t.category_id = C then { t with category_id := w.id } else t)
          = db.transactions := by
      calc db.transactions.map (fun t =>
            if t.category_id = C then { t with category_id := w.id } else t)
          = db.transactions.map id :=
            List.map_congr_left (fun t ht => by simp [hnt t ht])
        _ = db.transactions := List.map_id _
    rw [hmap, hfilter2, htx]

/-- C4: delete_category applies no sentinel guard: called on the id of the
single category named Uncategorized, it completes successfully and no
category of that name remains. -/
theorem claim_C4_delete_category_deletes_sentinel
    (db : DB) (u : Category)
    (hU : db.categories.filter (fun c => c.name = "Uncategorized") = [u]) :
    ∃ db', delete_category noFail db u.id = (db', none) ∧
      db'.categories.filter (fun c => c.name = "Uncategorized") = [] := by
  rw [delete_category_noFail_eq, hU]
  refine ⟨_, rfl, ?_⟩
  dsimp only
  apply List.filter_eq_nil_iff.mpr
  intro c hc
  simp only [decide_eq_true_eq]
  intro hname
  have hc1 := List.mem_filter.mp hc
  have hid : ¬ c.id = u.id := by simpa using hc1.2
  obtain ⟨c0, hc0, rfl⟩ := List.mem_map.mp hc1.1
  have hname0 : c0.name = "Uncategorized" := by
    rw [← promo_name db u.id c0]
    exact hname
  have hmemf : c0 ∈ db.categories.filter (fun c => c.name = "Uncategorized") :=
    List.mem_filter.mpr ⟨hc0, by simpa using hname0⟩
  rw [hU] at hmemf
  have hc0u : c0 = u := by simpa using hmemf
  apply hid
  rw [promo_id, hc0u]

/-- C5: update_category checks no ancestry: in the reachable store with
Food (id 2) parent of Groceries (id 3), re-parenting Food under its own
descendant Groceries succeeds and the resulting parent chain cycles. -/
theorem claim_C5_update_category_allows_cycle :
    (2 : Int) ∈ ancestors exReached 3 ∧
    (update_category noFail exReached 2 "Food" (some 3)).2 = none ∧
    ¬ acyclicParents (update_category noFail exReached 2 "Food" (some 3)).1 := by
  decide

/-- C6: when no category is named Uncategorized, delete_category returns
the sentinel lookup row-not-found error unmodified and the category row
for C is still present in the resulting store. -/
theorem claim_C6_delete_category_fails_without_sentinel
    (db : DB) (C : Int) (cat : Category)
    (hno : db.categories.filter (fun c => c.name = "Uncategorized") = [])
    (hc : cat ∈ db.categories) (hid : cat.id = C) :
    (delete_category noFail db C).2 = some DbError.rowNotFound ∧
    ∃ c ∈ (delete_category noFail db C).1.categories, c.id = C := by
  rw [delete_category_noFail_eq, hno]
  dsimp only
  exact ⟨rfl, promo db C cat, List.mem_map_of_mem _ hc, by rw [promo_id, hid]⟩

/-- C7: the steps of delete_category are not atomic: with the final DELETE
failing on exBase, the call returns the storage error while the Food row
(id 2) still exists, its child Groceries has already been promoted to
root, and the transaction has already been moved to Uncategorized. -/
theorem claim_C7_delete_category_partial_state_on_failure :
    delete_category failDeleteRow exBase 2
      = (exBaseAfterFailedDel2, some DbError.storageFault) ∧
    (∃ c ∈ exBaseAfterFailedDel2.categories, c.id = 2) ∧
    (∀ c ∈ exBaseAfterFailedDel2.categories, c.id = 3 → c.parent_id = none) ∧
    (∀ t ∈ exBaseAfterFailedDel2.transactions, t.category_id = 1) := by
  decide

/-- C8: orphan promotion is single-level: a grandchild D of the deleted
category C (its parent is a child K of C) survives a successful fault-free
delete_category(C) completely unchanged. -/
theorem claim_C8_delete_category_leaves_grandchildren
    (db : DB) (C : Int) (K D : Category)
    (hnd : (db.categories.map (fun c => c.id)).Nodup)
    (hacyc : acyclicParents db)
    (hsent : ¬ db.categories.filter (fun c => c.name = "Uncategorized") = [])
    (hK : K ∈ db.categories) (hKp : K.parent_id = some C)
    (hD : D ∈ db.categories) (hDp : D.parent_id = some K.id) :
    ∃ db', delete_category noFail db C = (db', none) ∧ D ∈ db'.categories := by
  have hKC : ¬ K.id = C := by
    intro h
    exact no_self_parent hnd hacyc hK (by rw [hKp, ← h])
  have hDC : ¬ D.id = C := by
    intro h
    have hne : D ≠ K := by
      intro he
      rw [he] at h
      exact hKC h
    exact no_two_cycle hnd hacyc hD hK hDp (by rw [hKp, ← h]) hne
  have hDnc : ¬ D.parent_id = some C := by
    rw [hDp]
    intro h
    apply hKC
    simpa using h
  rw [delete_category_noFail_eq]
  cases hfl : db.categories.filter (fun c => c.name = "Uncategorized") with
  | nil => exact absurd hfl hsent
  | cons u us =>
    refine ⟨_, rfl, ?_⟩
    dsimp only
    apply List.mem_filter.mpr
    refine ⟨?_, by simpa using hDC⟩
    have hfix : promo db C D = D := by simp [promo, hDnc]
    rw [← hfix]
    exact List.mem_map_of_mem _ hD

/-- C9: a successful fault-free delete_category(C) leaves accounts
untouched, keeps the number of transactions, keeps every transaction not
categorized as C unchanged, and rewrites only the category_id field of the
transactions categorized as C. -/
theorem claim_C9_delete_category_frame
    (db : DB) (C : Int) (db' : DB)
    (hok : delete_category noFail db C = (db', none)) :
    db'.accounts = db.accounts ∧
    db'.transactions.length = db.transactions.length ∧
    (∀ t ∈ db.transactions, ¬ t.category_id = C → t ∈ db'.transactions) ∧
    (∀ t ∈ db.transactions, t.category_id = C →
      ∃ t' ∈ db'.transactions, t'.id = t.id ∧ t'.account_id = t.account_id ∧
        t'.amount_cents = t.amount_cents ∧
        t'.transaction_type = t.transaction_type ∧
        t'.description = t.description ∧
        t'.transaction_date = t.transaction_date) := by
  rw [delete_category_noFail_eq] at hok
  cases hfl : db.categories.filter (fun c => c.name = "Uncategorized") with
  | nil => rw [hfl] at hok; simp at hok
  | cons u us =>
    rw [hfl] at hok
    have hfst := congrArg Prod.fst hok
    dsimp at hfst
    rw [← hfst]
    refine ⟨rfl, List.length_map _ _, ?_, ?_⟩
    · intro t ht hne
      have hfix : (fun t : Transaction =>
          if t.category_id = C then { t with category_id := u.id } else t) t = t := by
        simp [hne]
      rw [← hfix]
      exact List.mem_map_of_mem _ ht
    · intro t ht htc
      refine ⟨{ t with category_id := u.id }, ?_, rfl, rfl, rfl, rfl, rfl, rfl⟩
      have hfix : (fun t : Transaction =>
          if t.category_id = C then { t with category_id := u.id } else t) t
            = { t with category_id := u.id } := by
        simp [htc]
      rw [← hfix]
      exact List.mem_map_of_mem _ ht

/-- C10: delete_transaction with an id matching no stored transaction
returns success and leaves the store unchanged: a silent no-op. -/
theorem claim_C10_delete_transaction_missing_id_noop
    (db : DB) (tid : Int)
    (h : ∀ t ∈ db.transactions, ¬ t.id = tid) :
    delete_transaction noFail db tid = (db, none) := by
  simp only [delete_transaction, noFail, Bool.false_eq_true, if_false]
  have hfix : db.transactions.filter (fun t => ¬ t.id = tid) = db.transactions :=
    List.filter_eq_self.mpr (fun t ht => by simpa using h t ht)
  rw [hfix]

/-- C1 witness: the theorem applied to exChain, deleting Groceries
(id 3, parent Food). -/
theorem claim_C1_witness :
    ((exChain.categories.map (fun c => c.id)).Nodup ∧ acyclicParents exChain ∧
     findCategory exChain 3 = some { id := 3, name := "Groceries", parent_id := some 2 } ∧
     delete_category noFail exChain 3 = (exChainAfterDel3, none)) ∧
    ((∀ c ∈ exChain.categories, c.parent_id = some 3 →
        { c with parent_id := some 2 } ∈ exChainAfterDel3.categories) ∧
     (∀ c ∈ exChainAfterDel3.categories, ¬ c.id = 3)) :=
  ⟨⟨by decide, by decide, by decide, by decide⟩,
   claim_C1_delete_category_promotes_children exChain 3
     { id := 3, name := "Groceries", parent_id := some 2 } exChainAfterDel3
     (by decide) (by decide) (by decide) (by decide)⟩

/-- C2 witness: the theorem applied to exBase, deleting Food (id 2) with
the sentinel at id 1. -/
theorem claim_C2_witness :
    (exBase.categories.filter (fun c => c.name = "Uncategorized")
        = [{ id := 1, name := "Uncategorized", parent_id := none }] ∧
     ¬ (2 : Int) = (1 : Int)) ∧
    (∃ db', delete_category noFail exBase 2 = (db', none) ∧
      ∀ t ∈ exBase.transactions, t.category_id = 2 →
        { t with category_id := (1 : Int) } ∈ db'.transactions) :=
  ⟨⟨by decide, by decide⟩,
   claim_C2_delete_category_reassigns_transactions exBase 2
     { id := 1, name := "Uncategorized", parent_id := none }
     (by decide) (by decide)⟩

/-- C3 witness: the amended theorem applied to exSentinelOnly and the
absent id 5. -/
theorem claim_C3_amended_witness :
    ((∀ c ∈ exSentinelOnly.categories, ¬ c.id = 5) ∧
     (∀ c ∈ exSentinelOnly.categories, ¬ c.parent_id = some 5) ∧
     (∀ t ∈ exSentinelOnly.transactions, ¬ t.category_id = 5) ∧
     (∃ u ∈ exSentinelOnly.categories, u.name = "Uncategorized")) ∧
    delete_category noFail exSentinelOnly 5 = (exSentinelOnly, none) :=
  ⟨⟨by decide, by decide, by decide, by decide⟩,
   claim_C3_amended_delete_category_missing_id_noop exSentinelOnly 5
     (by decide) (by decide) (by decide) (by decide)⟩

/-- C4 witness: the theorem applied to exSentinelOnly, deleting the
sentinel itself. -/
theorem claim_C4_witness :
    (exSentinelOnly.categories.filter (fun c => c.name = "Uncategorized")
        = [{ id := 1, name := "Uncategorized", parent_id := none }]) ∧
    (∃ db', delete_category noFail exSentinelOnly 1 = (db', none) ∧
      db'.categories.filter (fun c => c.name = "Uncategorized") = []) :=
  ⟨by decide,
   claim_C4_delete_category_deletes_sentinel exSentinelOnly
     { id := 1, name := "Uncategorized", parent_id := none } (by decide)⟩

/-- C6 witness: the theorem applied to exNoSentinel, deleting Food
(id 2) while no Uncategorized category exists. -/
theorem claim_C6_witness :
    (exNoSentinel.categories.filter (fun c => c.name = "Uncategorized") = [] ∧
     { id := 2, name := "Food", parent_id := none } ∈ exNoSentinel.categories ∧
     ({ id := 2, name := "Food", parent_id := none } : Category).id = 2) ∧
    ((delete_category noFail exNoSentinel 2).2 = some DbError.rowNotFound ∧
     ∃ c ∈ (delete_category noFail exNoSentinel 2).1.categories, c.id = 2) :=
  ⟨⟨by decide, by decide, by decide⟩,
   claim_C6_delete_category_fails_without_sentinel exNoSentinel 2
     { id := 2, name := "Food", parent_id := none }
     (by decide) (by decide) (by decide)⟩

/-- C8 witness: the theorem applied to exChain, deleting Food (id 2)
with grandchild Organic (id 4) under Groceries (id 3). -/
theorem claim_C8_witness :
    ((exChain.categories.map (fun c => c.id)).Nodup ∧ acyclicParents exChain ∧
     ¬ exChain.categories.filter (fun c => c.name = "Uncategorized") = [] ∧
     { id := 3, name := "Groceries", parent_id := some 2 } ∈ exChain.categories ∧
     ({ id := 3, name := "Groceries", parent_id := some 2 } : Category).parent_id = some 2 ∧
     { id := 4, name := "Organic", parent_id := some 3 } ∈ exChain.categories ∧
     ({ id := 4, name := "Organic", parent_id := some 3 } : Category).parent_id = some 3) ∧
    (∃ db', delete_category noFail exChain 2 = (db', none) ∧
      { id := 4, name := "Organic", parent_id := some 3 } ∈ db'.categories) :=
  ⟨⟨by decide, by decide, by decide, by decide, by decide, by decide, by decide⟩,
   claim_C8_delete_category_leaves_grandchildren exChain 2
     { id := 3, name := "Groceries", parent_id := some 2 }
     { id := 4, name := "Organic", parent_id := some 3 }
     (by decide) (by decide) (by decide) (by decide) (by decide) (by decide) (by decide)⟩

/-- C9 witness: the theorem applied to exBase, deleting Food (id 2). -/
theorem claim_C9_witness :
    (delete_category noFail exBase 2 = (exBaseAfterDel2, none)) ∧
    (exBaseAfterDel2.accounts = exBase.accounts ∧
     exBaseAfterDel2.transactions.length = exBase.transactions.length ∧
     (∀ t ∈ exBase.transactions, ¬ t.category_id = 2 → t ∈ exBaseAfterDel2.transactions) ∧
     (∀ t ∈ exBase.transactions, t.category_id = 2 →
       ∃ t' ∈ exBaseAfterDel2.transactions, t'.id = t.id ∧ t'.account_id = t.account_id ∧
         t'.amount_cents = t.amount_cents ∧
         t'.transaction_type = t.transaction_type ∧
         t'.description = t.description ∧
         t'.transaction_date = t.transaction_date)) :=
  ⟨by decide,
   claim_C9_delete_category_frame exBase 2 exBaseAfterDel2 (by decide)⟩

/-- C10 witness: the theorem applied to exBase and the absent
transaction id 99. -/
theorem claim_C10_witness :
    (∀ t ∈ exBase.transactions, ¬ t.id = 99) ∧
    delete_transaction noFail exBase 99 = (exBase, none) :=
  ⟨by decide,
   claim_C10_delete_transaction_missing_id_noop exBase 99 (by decide)⟩

end Finsight
